import Mathlib

/-!
Verification of the Pick-5 profile builder pipeline
(`state_json_bldr.py`): draw extraction from raw text lines,
chronological-orientation inference, window selection, positional
transition-count matrices and their percentage normalisation, and the
exported profile shape and filename.

Modelling conventions:
* raw input text is modelled as its list of lines (the Python code
  iterates over `text.splitlines()`);
* Python lists of ints are `List ℕ`; digit indexing `d[pos]` is
  `List.getD pos 0` (every extracted draw has length 5, so the default
  is never used on real data);
* the mutable count dictionaries are modelled as functions `ℕ → ℕ → ℕ`
  updated by a fold over the same iteration order as the Python loops,
  materialised into 10×10 row lists exactly where the code builds the
  output lists;
* Python floats are modelled as exact rationals; `round(x, 6)` is
  round-half-to-even at 6 decimal places in exact arithmetic.
-/

/-- Numeric value of a digit character, as in the Python `int(g)` on a
single matched digit. -/
def digitVal (c : Char) : ℕ := c.toNat - ('0').toNat

/-- Model of `DRAW_RE.search(line)`: the regex
`(\d)[^\d]*?(\d)[^\d]*?(\d)[^\d]*?(\d)[^\d]*?(\d)` with lazy separators
matches, at the leftmost possible start, the first five digit
characters of the line in order (arbitrary non-digits between them).
The scanner walks the characters, collects digit values, and succeeds
as soon as the fifth digit is found; it fails if the line holds fewer
than five digits. -/
def scanLine : List Char → List ℕ → Option (List ℕ)
  | [], _ => none
  | c :: cs, acc =>
    if c.isDigit then
      if acc.length = 4 then some (acc ++ [digitVal c])
      else scanLine cs (acc ++ [digitVal c])
    else scanLine cs acc

/-- Source function `extract_draw_from_line`: first occurrence of 5 digits in order on
the line (separators allowed), or `none`. -/
def extract_draw_from_line (line : String) : Option (List ℕ) :=
  scanLine line.data []

/-- The draw-accumulation loop of `load_draws_from_text`: for each raw
line in order, append the extracted draw when there is one. -/
def extractedDraws (lines : List String) : List (List ℕ) :=
  lines.foldl
    (fun acc raw =>
      match extract_draw_from_line raw with
      | some digs => acc ++ [digs]
      | none => acc) []

/-- Source function `load_draws_from_text`: extract the draws line by line and fail
(`ValueError`, the spec's InsufficientDataError) when fewer than 2
draws were parsed. -/
def load_draws_from_text (lines : List String) :
    Except String (List (List ℕ)) :=
  let draws := extractedDraws lines
  if draws.length < 2 then
    Except.error ("Need at least 2 parsed draws in the file/text.")
  else Except.ok draws

/-- The `bins` array of `coverage` for one position: `bins[v]` counts
the predecessor draws (`draws[:-1]`) whose digit at `pos` is `v`,
built by the same left-to-right fold as the Python loop. -/
def bins (draws : List (List ℕ)) (pos : ℕ) : ℕ → ℕ :=
  draws.dropLast.foldl
    (fun b d => fun v => if v = d.getD pos 0 then b v + 1 else b v)
    (fun _ => 0)

/-- Source function `coverage`: for each of the 5 positions, the number of the 10
digit bins that are non-empty over the predecessor draws; summed. -/
def coverage (draws : List (List ℕ)) : ℕ :=
  ((List.range 5).map (fun pos =>
    ((List.range 10).map (fun v =>
      if 0 < bins draws pos v then 1 else 0)).sum)).sum

/-- Source function `ensure_oldest_to_newest`: compare coverage of the sequence and of
its reverse; reverse exactly when the reverse scores strictly higher. -/
def ensure_oldest_to_newest (draws : List (List ℕ)) :
    List (List ℕ) × String :=
  if coverage draws < coverage draws.reverse then
    (draws.reverse, "Input looked newest→oldest; reversed to oldest→newest.")
  else (draws, "Input already oldest→newest.")

/-- One `counts[pos][seed[pos]][nxt[pos]] += 1` update. -/
def bumpAt (m : ℕ → ℕ → ℕ) (a b : ℕ) : ℕ → ℕ → ℕ :=
  fun x y => if x = a ∧ y = b then m x y + 1 else m x y

/-- The count-accumulation loop of `build_transition_matrices` for one
position: for `i in range(len(draws)-1)` bump the cell indexed by the
digits of `draws[i]` and `draws[i+1]` at `pos`. The pairs
`(draws[i], draws[i+1])` are `draws.zip draws.tail`. -/
def transCounts (draws : List (List ℕ)) (pos : ℕ) : ℕ → ℕ → ℕ :=
  (draws.zip draws.tail).foldl
    (fun m p => bumpAt m (p.1.getD pos 0) (p.2.getD pos 0))
    (fun _ _ => 0)

/-- Materialise a count function into the 10×10 list-of-rows matrix
(`[[0]*10 for _ in range(10)]` after all updates). -/
def countRows (m : ℕ → ℕ → ℕ) : List (List ℕ) :=
  (List.range 10).map (fun a => (List.range 10).map (fun b => m a b))

/-- Round-half-to-even to an integer, the tie rule of Python `round`. -/
def roundHalfEven (x : ℚ) : ℤ :=
  if x - ⌊x⌋ < 1/2 then ⌊x⌋
  else if 1/2 < x - ⌊x⌋ then ⌊x⌋ + 1
  else if ⌊x⌋ % 2 = 0 then ⌊x⌋ else ⌊x⌋ + 1

/-- Python `round(x, 6)`: round to 6 decimal places, in exact arithmetic. -/
def round6 (x : ℚ) : ℚ := (roundHalfEven (x * 1000000) : ℚ) / 1000000

/-- Percentage conversion of one count row: all-zero rows stay ten
`0.0`; otherwise each count becomes `round(100.0 * c / s, 6)` with `s`
the row sum. -/
def pctRow (row : List ℕ) : List ℚ :=
  if row.sum = 0 then List.replicate 10 (0 : ℚ)
  else row.map (fun c : ℕ => round6 ((100 * (c : ℚ)) / ((row.sum : ℕ) : ℚ)))

/-- The percentage matrix of one position. -/
def transMatrix (draws : List (List ℕ)) (pos : ℕ) : List (List ℚ) :=
  (countRows (transCounts draws pos)).map pctRow

/-- Source function `build_transition_matrices`: the profile, keys `P1`..`P5` in order,
each mapped to its position's percentage matrix. -/
def build_transition_matrices (draws : List (List ℕ)) :
    List (String × List (List ℚ)) :=
  (List.range 5).map (fun pos =>
    ("P" ++ toString (pos + 1), transMatrix draws pos))

/-- The window-selection step of the build handler:
`if recent and recent > 1: draws = draws[-recent:]`. Python's
`l[-n:]` keeps the elements from index `max(0, len(l) - n)` on, which
is `List.drop (l.length - n)` in truncated subtraction. -/
def windowSelect (recent : ℕ) (draws : List (List ℕ)) : List (List ℕ) :=
  if 1 < recent then draws.drop (draws.length - recent) else draws

/-- The core build pipeline of the handler: load the draws (failing
when fewer than 2 parse), orient, window, build the matrices. An
extraction failure propagates and no matrices are built. -/
def buildProfile (lines : List String) (recent : ℕ) :
    Except String (List (String × List (List ℚ))) :=
  match load_draws_from_text lines with
  | Except.error e => Except.error e
  | Except.ok draws =>
      Except.ok (build_transition_matrices
        (windowSelect recent (ensure_oldest_to_newest draws).1))

/-- The fixed draw-session labels offered by the UI (`DRAWS`). -/
def DRAWS : List String := ["mid", "eve"]

/-- The suggested download filename,
the f-string `positional_matrices_<state>_<draw>.json` of the handler. -/
def mkFilename (state draw : String) : String :=
  "positional_matrices_" ++ state ++ "_" ++ draw ++ ".json"

/-- Coverage score as the spec words it: per position, how many of the
10 digit values appear at least once among the predecessor draws
(every draw except the last), summed over the 5 positions. -/
def coverageSpec (draws : List (List ℕ)) : ℕ :=
  ((List.range 5).map (fun pos =>
    ((Finset.range 10).filter
      (fun v => ∃ d ∈ draws.dropLast, d.getD pos 0 = v)).card)).sum

lemma extractedDraws_aux (lines : List String) (acc : List (List ℕ)) :
    lines.foldl
      (fun acc raw =>
        match extract_draw_from_line raw with
        | some digs => acc ++ [digs]
        | none => acc) acc
      = acc ++ lines.filterMap extract_draw_from_line := by
  induction lines generalizing acc with
  | nil => simp
  | cons l ls ih =>
    cases h : extract_draw_from_line l <;>
      simp [List.foldl_cons, h, ih, List.filterMap_cons]

lemma extractedDraws_eq_filterMap (lines : List String) :
    extractedDraws lines = lines.filterMap extract_draw_from_line := by
  unfold extractedDraws
  simpa using extractedDraws_aux lines []

lemma scanLine_eq (cs : List Char) (acc : List ℕ) (h : acc.length ≤ 4) :
    scanLine cs acc =
      if 5 ≤ acc.length + (cs.filter Char.isDigit).length then
        some (acc ++ ((cs.filter Char.isDigit).take (5 - acc.length)).map digitVal)
      else none := by
  induction cs generalizing acc with
  | nil =>
    rw [scanLine]
    rw [if_neg (by simp only [List.filter_nil, List.length_nil]; omega)]
  | cons c cs ih =>
    rw [scanLine]
    by_cases hd : c.isDigit
    · rw [if_pos hd, List.filter_cons_of_pos hd]
      by_cases h4 : acc.length = 4
      · rw [if_pos h4]
        rw [if_pos (by simp only [List.length_cons]; omega)]
        have h54 : 5 - acc.length = 1 := by omega
        rw [h54]
        simp
      · rw [if_neg h4]
        have hlen : (acc ++ [digitVal c]).length = acc.length + 1 := by simp
        have hlen4 : (acc ++ [digitVal c]).length ≤ 4 := by omega
        rw [ih _ hlen4, hlen]
        have hsub : 5 - acc.length = (5 - (acc.length + 1)) + 1 := by omega
        by_cases h5 : 5 ≤ acc.length + 1 + (cs.filter Char.isDigit).length
        · rw [if_pos h5, if_pos (by simp only [List.length_cons]; omega)]
          rw [hsub, List.take_succ_cons]
          simp
        · rw [if_neg h5, if_neg (by simp only [List.length_cons]; omega)]
    · rw [if_neg hd, ih _ h, List.filter_cons_of_neg hd]

lemma extract_draw_eq (line : String) :
    extract_draw_from_line line =
      if 5 ≤ (line.data.filter Char.isDigit).length then
        some (((line.data.filter Char.isDigit).take 5).map digitVal)
      else none := by
  unfold extract_draw_from_line
  simpa using scanLine_eq line.data [] (by simp)

lemma bins_foldl_aux (l : List (List ℕ)) (pos : ℕ) (b : ℕ → ℕ) (v : ℕ) :
    (l.foldl
      (fun b d => fun v => if v = d.getD pos 0 then b v + 1 else b v) b) v
      = b v + l.countP (fun d => decide (v = d.getD pos 0)) := by
  induction l generalizing b with
  | nil => simp
  | cons d ds ih =>
    rw [List.foldl_cons, ih, List.countP_cons]
    by_cases h : v = d.getD pos 0
    · rw [if_pos h, if_pos (by simpa using h)]
      omega
    · rw [if_neg h, if_neg (by simpa using h)]
      omega

lemma bins_eq_countP (draws : List (List ℕ)) (pos v : ℕ) :
    bins draws pos v
      = draws.dropLast.countP (fun d => decide (v = d.getD pos 0)) := by
  unfold bins
  rw [bins_foldl_aux]
  omega

lemma bins_pos_iff (draws : List (List ℕ)) (pos v : ℕ) :
    0 < bins draws pos v ↔ ∃ d ∈ draws.dropLast, d.getD pos 0 = v := by
  rw [bins_eq_countP, List.countP_pos_iff]
  constructor
  · rintro ⟨d, hd, hv⟩
    exact ⟨d, hd, (of_decide_eq_true hv).symm⟩
  · rintro ⟨d, hd, hv⟩
    exact ⟨d, hd, decide_eq_true hv.symm⟩

lemma list_sum_map_range (n : ℕ) (f : ℕ → ℕ) :
    ((List.range n).map f).sum = ∑ i ∈ Finset.range n, f i := by
  induction n with
  | zero => simp
  | succ n ih =>
    rw [List.range_succ, Finset.sum_range_succ, List.map_append, List.sum_append, ih]
    simp

lemma coverage_eq_coverageSpec (draws : List (List ℕ)) :
    coverage draws = coverageSpec draws := by
  unfold coverage coverageSpec
  congr 1
  apply List.map_congr_left
  intro pos _
  rw [Finset.card_filter, ← list_sum_map_range]
  congr 1
  apply List.map_congr_left
  intro v _
  by_cases h : 0 < bins draws pos v
  · rw [if_pos h, if_pos ((bins_pos_iff draws pos v).mp h)]
  · rw [if_neg h, if_neg (fun hc => h ((bins_pos_iff draws pos v).mpr hc))]

lemma sum_map_range_succ_at (n : ℕ) (f g : ℕ → ℕ) (a : ℕ) (ha : a < n)
    (hne : ∀ x, x ≠ a → g x = f x) (hsucc : g a = f a + 1) :
    ((List.range n).map g).sum = ((List.range n).map f).sum + 1 := by
  induction n with
  | zero => omega
  | succ n ih =>
    rw [List.range_succ, List.map_append, List.map_append,
      List.sum_append, List.sum_append]
    by_cases h : a = n
    · subst h
      have hmap : (List.range a).map g = (List.range a).map f := by
        apply List.map_congr_left
        intro x hx
        exact hne x (by rw [List.mem_range] at hx; omega)
      rw [hmap]
      simp only [List.map_cons, List.map_nil, List.sum_cons, List.sum_nil, hsucc]
      omega
    · have ha' : a < n := by omega
      rw [ih ha']
      simp [hne n (fun hc => h hc.symm)]
      omega

lemma rowTotal_bump_ne (m : ℕ → ℕ → ℕ) (a b x : ℕ) (hx : x ≠ a) :
    ((List.range 10).map (fun y => bumpAt m a b x y)).sum
      = ((List.range 10).map (fun y => m x y)).sum := by
  apply congrArg List.sum
  apply List.map_congr_left
  intro y _
  unfold bumpAt
  rw [if_neg (by tauto)]

lemma rowTotal_bump_eq (m : ℕ → ℕ → ℕ) (a b : ℕ) (hb : b < 10) :
    ((List.range 10).map (fun y => bumpAt m a b a y)).sum
      = ((List.range 10).map (fun y => m a y)).sum + 1 := by
  apply sum_map_range_succ_at 10 (fun y => m a y) (fun y => bumpAt m a b a y) b hb
  · intro y hy
    unfold bumpAt
    rw [if_neg (by tauto)]
  · unfold bumpAt
    rw [if_pos ⟨rfl, rfl⟩]

lemma grand_bump (m : ℕ → ℕ → ℕ) (a b : ℕ) (ha : a < 10) (hb : b < 10) :
    ((List.range 10).map (fun x =>
        ((List.range 10).map (fun y => bumpAt m a b x y)).sum)).sum
      = ((List.range 10).map (fun x =>
          ((List.range 10).map (fun y => m x y)).sum)).sum + 1 := by
  apply sum_map_range_succ_at 10
    (fun x => ((List.range 10).map (fun y => m x y)).sum)
    (fun x => ((List.range 10).map (fun y => bumpAt m a b x y)).sum) a ha
  · intro x hx
    exact rowTotal_bump_ne m a b x hx
  · exact rowTotal_bump_eq m a b hb

lemma grand_foldl (pairs : List (List ℕ × List ℕ)) (pos : ℕ) (m : ℕ → ℕ → ℕ)
    (hp : ∀ p ∈ pairs, p.1.getD pos 0 < 10 ∧ p.2.getD pos 0 < 10) :
    ((List.range 10).map (fun x =>
        ((List.range 10).map (fun y =>
          (pairs.foldl
            (fun m p => bumpAt m (p.1.getD pos 0) (p.2.getD pos 0)) m) x y)).sum)).sum
      = ((List.range 10).map (fun x =>
          ((List.range 10).map (fun y => m x y)).sum)).sum + pairs.length := by
  induction pairs generalizing m with
  | nil => simp
  | cons p ps ih =>
    rw [List.foldl_cons, List.length_cons]
    rw [ih _ (fun q hq => hp q (List.mem_cons_of_mem _ hq))]
    rw [grand_bump m _ _ (hp p (List.mem_cons_self _ _)).1
      (hp p (List.mem_cons_self _ _)).2]
    omega

lemma getD_digit_lt (d : List ℕ) (pos : ℕ) (hd : ∀ x ∈ d, x < 10) :
    d.getD pos 0 < 10 := by
  by_cases h : pos < d.length
  · rw [List.getD_eq_getElem?_getD, List.getElem?_eq_getElem h]
    exact hd _ (List.getElem_mem h)
  · rw [List.getD_eq_getElem?_getD, List.getElem?_eq_none (by omega)]
    simp

lemma transCounts_foldl_cell (pairs : List (List ℕ × List ℕ)) (pos : ℕ)
    (m : ℕ → ℕ → ℕ) (a b : ℕ) :
    (pairs.foldl
        (fun m p => bumpAt m (p.1.getD pos 0) (p.2.getD pos 0)) m) a b
      = m a b + pairs.countP
          (fun p => decide (p.1.getD pos 0 = a ∧ p.2.getD pos 0 = b)) := by
  induction pairs generalizing m with
  | nil => simp
  | cons p ps ih =>
    rw [List.foldl_cons, ih, List.countP_cons]
    unfold bumpAt
    by_cases h : a = p.1.getD pos 0 ∧ b = p.2.getD pos 0
    · rw [if_pos ⟨h.1, h.2⟩, if_pos (decide_eq_true ⟨h.1.symm, h.2.symm⟩)]
      omega
    · rw [if_neg (by tauto)]
      rw [if_neg (fun hc => h
        ⟨(of_decide_eq_true hc).1.symm, (of_decide_eq_true hc).2.symm⟩)]
      omega

lemma roundHalfEven_sub_le (x : ℚ) : |(roundHalfEven x : ℚ) - x| ≤ 1/2 := by
  unfold roundHalfEven
  have h0 : (0 : ℚ) ≤ x - ⌊x⌋ := sub_nonneg.mpr (Int.floor_le x)
  have h1 : x - ⌊x⌋ < 1 := by
    have := Int.lt_floor_add_one x
    linarith
  split_ifs with hlt hgt hev
  · rw [abs_le]
    constructor <;> linarith
  · rw [abs_le]
    push_cast
    constructor <;> linarith
  · rw [abs_le]
    constructor <;> linarith
  · rw [abs_le]
    push_cast
    constructor <;> linarith

lemma round6_sub_le (x : ℚ) : |round6 x - x| ≤ 1/2000000 := by
  unfold round6
  have h := roundHalfEven_sub_le (x * 1000000)
  have heq : (roundHalfEven (x * 1000000) : ℚ) / 1000000 - x
      = ((roundHalfEven (x * 1000000) : ℚ) - x * 1000000) / 1000000 := by
    ring
  rw [heq, abs_div]
  have habs : |(1000000 : ℚ)| = 1000000 := by norm_num
  rw [habs]
  rw [div_le_iff₀ (by norm_num)]
  linarith

lemma sum_map_round6_close (cs : List ℕ) (f : ℕ → ℚ) :
    |(cs.map (fun c => round6 (f c))).sum - (cs.map f).sum|
      ≤ cs.length * (1/2000000) := by
  induction cs with
  | nil => simp
  | cons c cs ih =>
    simp only [List.map_cons, List.sum_cons, List.length_cons]
    have h := round6_sub_le (f c)
    have tri : |round6 (f c) + (cs.map (fun c => round6 (f c))).sum
        - (f c + (cs.map f).sum)|
        ≤ |round6 (f c) - f c|
          + |(cs.map (fun c => round6 (f c))).sum - (cs.map f).sum| := by
      have : round6 (f c) + (cs.map (fun c => round6 (f c))).sum
          - (f c + (cs.map f).sum)
          = (round6 (f c) - f c)
            + ((cs.map (fun c => round6 (f c))).sum - (cs.map f).sum) := by
        ring
      rw [this]
      exact abs_add _ _
    have hcast : ((cs.length + 1 : ℕ) : ℚ) = (cs.length : ℚ) + 1 := by
      push_cast
      ring
    rw [hcast]
    calc |round6 (f c) + (cs.map (fun c => round6 (f c))).sum
        - (f c + (cs.map f).sum)|
        ≤ |round6 (f c) - f c|
          + |(cs.map (fun c => round6 (f c))).sum - (cs.map f).sum| := tri
      _ ≤ 1/2000000 + cs.length * (1/2000000) := add_le_add h ih
      _ = ((cs.length : ℚ) + 1) * (1/2000000) := by ring

lemma sum_map_pct (cs : List ℕ) (h : cs.sum ≠ 0) :
    (cs.map (fun c : ℕ => (100 * (c : ℚ)) / ((cs.sum : ℕ) : ℚ))).sum = 100 := by
  have hs : ((cs.sum : ℕ) : ℚ) ≠ 0 := Nat.cast_ne_zero.mpr h
  have hfun : (fun c : ℕ => (100 * (c : ℚ)) / ((cs.sum : ℕ) : ℚ))
      = fun c : ℕ => (c : ℚ) * (100 / ((cs.sum : ℕ) : ℚ)) := by
    funext c
    ring
  have hcast : (List.map (Nat.cast : ℕ → ℚ) cs).sum = ((cs.sum : ℕ) : ℚ) := by
    induction cs with
    | nil => simp
    | cons c cs ih =>
      simp only [List.map_cons, List.sum_cons, List.sum_cons, ih]
      push_cast
      ring
  rw [hfun, List.sum_map_mul_right, hcast, mul_comm]
  exact div_mul_cancel₀ 100 hs

lemma getD_map_range {α : Type} (n : ℕ) (f : ℕ → α) (d : α) (i : ℕ) (h : i < n) :
    (((List.range n).map f).getD i d) = f i := by
  rw [List.getD_eq_getElem?_getD, List.getElem?_map, List.getElem?_range h]
  rfl

lemma getD_map_lt {α β : Type} (g : α → β) (l : List α) (i : ℕ) (d : β) (d' : α)
    (h : i < l.length) :
    (l.map g).getD i d = g (l.getD i d') := by
  rw [List.getD_eq_getElem?_getD, List.getElem?_map,
    List.getElem?_eq_getElem h, List.getD_eq_getElem?_getD,
    List.getElem?_eq_getElem h]
  rfl

/-- Claim C4: the orientation resolver computes the coverage score of the
sequence and of its exact reverse — per position, the number of the 10
digit values occurring at least once among all draws except the last,
summed over the 5 positions — and returns the reversed sequence when
the reverse's score is strictly greater, the original otherwise (ties
keep the original). -/
theorem orientation_by_coverage (draws : List (List ℕ))
    (h : 2 ≤ draws.length) :
    coverage draws = coverageSpec draws ∧
    coverage draws.reverse = coverageSpec draws.reverse ∧
    (ensure_oldest_to_newest draws).1 =
      (if coverageSpec draws < coverageSpec draws.reverse
       then draws.reverse else draws) := by
  refine ⟨coverage_eq_coverageSpec draws, coverage_eq_coverageSpec draws.reverse, ?_⟩
  unfold ensure_oldest_to_newest
  rw [coverage_eq_coverageSpec, coverage_eq_coverageSpec]
  by_cases hc : coverageSpec draws < coverageSpec draws.reverse
  · rw [if_pos hc, if_pos hc]
  · rw [if_neg hc, if_neg hc]

/-- Claim C4 witness at the three-draw fixture. -/
theorem orientation_by_coverage_witness :
    2 ≤ ([[1,7,4,8,8],[1,7,4,8,8],[2,2,3,4,5]] : List (List ℕ)).length ∧
    (coverage [[1,7,4,8,8],[1,7,4,8,8],[2,2,3,4,5]]
        = coverageSpec [[1,7,4,8,8],[1,7,4,8,8],[2,2,3,4,5]] ∧
      coverage ([[1,7,4,8,8],[1,7,4,8,8],[2,2,3,4,5]] : List (List ℕ)).reverse
        = coverageSpec ([[1,7,4,8,8],[1,7,4,8,8],[2,2,3,4,5]] : List (List ℕ)).reverse ∧
      (ensure_oldest_to_newest [[1,7,4,8,8],[1,7,4,8,8],[2,2,3,4,5]]).1 =
        (if coverageSpec [[1,7,4,8,8],[1,7,4,8,8],[2,2,3,4,5]]
            < coverageSpec ([[1,7,4,8,8],[1,7,4,8,8],[2,2,3,4,5]] : List (List ℕ)).reverse
         then ([[1,7,4,8,8],[1,7,4,8,8],[2,2,3,4,5]] : List (List ℕ)).reverse
         else [[1,7,4,8,8],[1,7,4,8,8],[2,2,3,4,5]])) :=
  ⟨by decide, orientation_by_coverage _ (by decide)⟩

/-- Claim C10: orientation resolution returns either the input or its exact
reverse, so it preserves the length and the multiset of draws. -/
theorem orientation_returns_input_or_reverse (draws : List (List ℕ)) :
    ((ensure_oldest_to_newest draws).1 = draws ∨
      (ensure_oldest_to_newest draws).1 = draws.reverse) ∧
    (ensure_oldest_to_newest draws).1.length = draws.length ∧
    (ensure_oldest_to_newest draws).1.Perm draws := by
  unfold ensure_oldest_to_newest
  by_cases hc : coverage draws < coverage draws.reverse
  · rw [if_pos hc]
    exact ⟨Or.inr rfl, List.length_reverse _, List.reverse_perm draws⟩
  · rw [if_neg hc]
    exact ⟨Or.inl rfl, rfl, List.Perm.refl draws⟩

/-- Claim C6: draws are extracted line by line, in input order, one draw per
matching line (non-matching lines contribute nothing); per line the
extractor returns the first five digit characters appearing in order,
with arbitrary non-digit characters between them. -/
theorem extraction_per_line (lines : List String) :
    extractedDraws lines = lines.filterMap extract_draw_from_line ∧
    ∀ line : String,
      extract_draw_from_line line =
        (if 5 ≤ (line.data.filter Char.isDigit).length then
          some (((line.data.filter Char.isDigit).take 5).map digitVal)
        else none) :=
  ⟨extractedDraws_eq_filterMap lines, fun line => extract_draw_eq line⟩

/-- Claim C7: the window selector returns the sequence unchanged when
N ≤ 1, and for N > 1 keeps exactly the last N draws (all of them when
fewer than N exist), preserving order as a suffix. -/
theorem window_selector_behaviour (recent : ℕ) (draws : List (List ℕ)) :
    (recent ≤ 1 → windowSelect recent draws = draws) ∧
    (1 < recent →
      windowSelect recent draws = draws.drop (draws.length - recent) ∧
      (windowSelect recent draws).length = min recent draws.length ∧
      (windowSelect recent draws).IsSuffix draws) := by
  constructor
  · intro h
    unfold windowSelect
    rw [if_neg (by omega)]
  · intro h
    unfold windowSelect
    rw [if_pos h]
    refine ⟨rfl, ?_, List.drop_suffix _ _⟩
    rw [List.length_drop]
    omega

/-- Claim C7 witness: a window of 3 on a 4-draw sequence keeps the last 3. -/
theorem window_selector_behaviour_witness :
    1 < 3 ∧
    (windowSelect 3 [[1,1,1,1,1],[2,2,2,2,2],[3,3,3,3,3],[4,4,4,4,4]]
        = ([[1,1,1,1,1],[2,2,2,2,2],[3,3,3,3,3],[4,4,4,4,4]] : List (List ℕ)).drop
            (([[1,1,1,1,1],[2,2,2,2,2],[3,3,3,3,3],[4,4,4,4,4]] : List (List ℕ)).length - 3) ∧
      (windowSelect 3 [[1,1,1,1,1],[2,2,2,2,2],[3,3,3,3,3],[4,4,4,4,4]]).length
        = min 3 ([[1,1,1,1,1],[2,2,2,2,2],[3,3,3,3,3],[4,4,4,4,4]] : List (List ℕ)).length ∧
      (windowSelect 3 [[1,1,1,1,1],[2,2,2,2,2],[3,3,3,3,3],[4,4,4,4,4]]).IsSuffix
        [[1,1,1,1,1],[2,2,2,2,2],[3,3,3,3,3],[4,4,4,4,4]]) :=
  ⟨by decide,
    (window_selector_behaviour 3
      [[1,1,1,1,1],[2,2,2,2,2],[3,3,3,3,3],[4,4,4,4,4]]).2 (by decide)⟩

/-- Claim C8: the pipeline fails with the insufficient-data error exactly
when fewer than 2 draws are extracted from the input; in that case no
profile is produced. -/
theorem insufficient_data_failure (lines : List String) (recent : ℕ) :
    (buildProfile lines recent =
        Except.error ("Need at least 2 parsed draws in the file/text.") ↔
      (lines.filterMap extract_draw_from_line).length < 2) ∧
    ((lines.filterMap extract_draw_from_line).length < 2 →
      ∀ P, buildProfile lines recent ≠ Except.ok P) := by
  have hE : extractedDraws lines = lines.filterMap extract_draw_from_line :=
    extractedDraws_eq_filterMap lines
  unfold buildProfile load_draws_from_text
  rw [hE]
  by_cases h : (lines.filterMap extract_draw_from_line).length < 2
  · rw [if_pos h]
    exact ⟨⟨fun _ => h, fun _ => rfl⟩, fun _ P hc => Except.noConfusion hc⟩
  · rw [if_neg h]
    constructor
    · constructor
      · intro hc
        exact Except.noConfusion hc
      · intro hc
        omega
    · intro hc
      omega

/-- Claim C8 witness: a single-draw input fails with the error. -/
theorem insufficient_data_failure_witness :
    buildProfile (["17488"]) 0 =
      Except.error ("Need at least 2 parsed draws in the file/text.") :=
  (insufficient_data_failure (["17488"]) 0).1.mpr (by decide)

/-- Claim C1: in each position's percentage matrix, the cell at row `a`
(predecessor digit) and column `b` (successor digit) is 0 when the
count row's total is 0, and otherwise `100 × count / row_total`
rounded to 6 decimal places. -/
theorem matrix_row_normalisation (draws : List (List ℕ)) (pos a b : ℕ)
    (hpos : pos < 5) (ha : a < 10) (hb : b < 10) :
    ((transMatrix draws pos).getD a []).getD b 0 =
      (if ((List.range 10).map (fun y => transCounts draws pos a y)).sum = 0
       then 0
       else round6 ((100 * ((transCounts draws pos a b : ℕ) : ℚ)) /
         ((((List.range 10).map (fun y => transCounts draws pos a y)).sum : ℕ) : ℚ))) := by
  unfold transMatrix countRows
  rw [List.map_map]
  rw [getD_map_range 10 _ _ a ha]
  simp only [Function.comp_apply]
  unfold pctRow
  by_cases hz : ((List.range 10).map (fun y => transCounts draws pos a y)).sum = 0
  · rw [if_pos hz, if_pos hz]
    rw [List.getD_eq_getElem?_getD, List.getElem?_replicate]
    rw [if_pos hb]
    rfl
  · rw [if_neg hz, if_neg hz]
    rw [getD_map_lt _ _ b _ 0 (by simp only [List.length_map, List.length_range]; omega)]
    rw [getD_map_range 10 _ _ b hb]

/-- Claim C1 witness: two draws, position 1's row for predecessor digit 1. -/
theorem matrix_row_normalisation_witness :
    (0 : ℕ) < 5 ∧ (1 : ℕ) < 10 ∧ (2 : ℕ) < 10 ∧
    ((transMatrix [[1,7,4,8,8],[2,2,3,4,5]] 0).getD 1 []).getD 2 0 =
      (if ((List.range 10).map
            (fun y => transCounts [[1,7,4,8,8],[2,2,3,4,5]] 0 1 y)).sum = 0
       then 0
       else round6 ((100 * ((transCounts [[1,7,4,8,8],[2,2,3,4,5]] 0 1 2 : ℕ) : ℚ)) /
         ((((List.range 10).map
            (fun y => transCounts [[1,7,4,8,8],[2,2,3,4,5]] 0 1 y)).sum : ℕ) : ℚ))) :=
  ⟨by decide, by decide, by decide,
    matrix_row_normalisation [[1,7,4,8,8],[2,2,3,4,5]] 0 1 2
      (by decide) (by decide) (by decide)⟩

/-- Claim C3: for a working sequence of digit draws, the count function
records, cell by cell, the number of adjacent pairs carrying those two
digits at the position, and the 100 entries of the materialised count
matrix sum to exactly `L - 1`. -/
theorem transition_counts_total (draws : List (List ℕ)) (pos a b : ℕ)
    (hpos : pos < 5) (h2 : 2 ≤ draws.length)
    (hd : ∀ d ∈ draws, ∀ x ∈ d, x < 10) :
    transCounts draws pos a b =
      (draws.zip draws.tail).countP
        (fun p => decide (p.1.getD pos 0 = a ∧ p.2.getD pos 0 = b)) ∧
    ((countRows (transCounts draws pos)).map List.sum).sum
      = draws.length - 1 := by
  have hpair : ∀ p ∈ draws.zip draws.tail,
      p.1.getD pos 0 < 10 ∧ p.2.getD pos 0 < 10 := by
    intro p hp
    have hmem := List.of_mem_zip hp
    constructor
    · exact getD_digit_lt _ _ (hd _ hmem.1)
    · exact getD_digit_lt _ _ (hd _ (List.mem_of_mem_tail hmem.2))
  constructor
  · unfold transCounts
    rw [transCounts_foldl_cell]
    omega
  · unfold countRows
    rw [List.map_map]
    show ((List.range 10).map (fun x =>
      ((List.range 10).map (fun y => transCounts draws pos x y)).sum)).sum = _
    unfold transCounts
    rw [grand_foldl _ pos _ hpair]
    have hlen : (draws.zip draws.tail).length = draws.length - 1 := by
      rw [List.length_zip, List.length_tail]
      omega
    rw [hlen]
    simp

/-- Claim C3 witness at a concrete two-draw sequence. -/
theorem transition_counts_total_witness :
    (0 : ℕ) < 5 ∧
    2 ≤ ([[1,7,4,8,8],[2,2,3,4,5]] : List (List ℕ)).length ∧
    (∀ d ∈ ([[1,7,4,8,8],[2,2,3,4,5]] : List (List ℕ)), ∀ x ∈ d, x < 10) ∧
    (transCounts [[1,7,4,8,8],[2,2,3,4,5]] 0 1 2 =
      (([[1,7,4,8,8],[2,2,3,4,5]] : List (List ℕ)).zip
          ([[1,7,4,8,8],[2,2,3,4,5]] : List (List ℕ)).tail).countP
        (fun p => decide (p.1.getD 0 0 = 1 ∧ p.2.getD 0 0 = 2)) ∧
    ((countRows (transCounts [[1,7,4,8,8],[2,2,3,4,5]] 0)).map List.sum).sum
      = ([[1,7,4,8,8],[2,2,3,4,5]] : List (List ℕ)).length - 1) :=
  ⟨by decide, by decide, by decide,
    transition_counts_total [[1,7,4,8,8],[2,2,3,4,5]] 0 1 2
      (by decide) (by decide) (by decide)⟩

/-- Claim C2: every row of every one of the five output matrices either is
exactly ten zeros or sums to 100 within an absolute tolerance of
`1e-3`. -/
theorem row_sums_hundred_or_zero (draws : List (List ℕ))
    (key : String) (mat : List (List ℚ)) (row : List ℚ)
    (h2 : 2 ≤ draws.length)
    (hmem : (key, mat) ∈ build_transition_matrices draws)
    (hrow : row ∈ mat) :
    row = List.replicate 10 (0 : ℚ) ∨ |row.sum - 100| ≤ 1/1000 := by
  unfold build_transition_matrices at hmem
  rw [List.mem_map] at hmem
  obtain ⟨pos, _, hkm⟩ := hmem
  have hmat : mat = transMatrix draws pos := congrArg Prod.snd hkm.symm
  rw [hmat] at hrow
  unfold transMatrix at hrow
  rw [List.mem_map] at hrow
  obtain ⟨crow, hcrow, hpct⟩ := hrow
  unfold countRows at hcrow
  rw [List.mem_map] at hcrow
  obtain ⟨ra, _, hra⟩ := hcrow
  have hclen : crow.length = 10 := by
    rw [← hra]
    simp
  subst hpct
  unfold pctRow
  by_cases hz : crow.sum = 0
  · left
    rw [if_pos hz]
  · right
    rw [if_neg hz]
    have hclose := sum_map_round6_close crow
      (fun c => (100 * (c : ℚ)) / ((crow.sum : ℕ) : ℚ))
    have hexact := sum_map_pct crow hz
    rw [hexact, hclen] at hclose
    have : ((10 : ℕ) : ℚ) * (1/2000000) ≤ 1/1000 := by norm_num
    calc |(crow.map (fun c : ℕ =>
            round6 ((100 * (c : ℚ)) / ((crow.sum : ℕ) : ℚ)))).sum - 100|
        ≤ ((10 : ℕ) : ℚ) * (1/2000000) := hclose
      _ ≤ 1/1000 := this

/-- Claim C2 witness: the all-zero row for predecessor digit 0 of P1. -/
theorem row_sums_hundred_or_zero_witness :
    2 ≤ ([[1,7,4,8,8],[2,2,3,4,5]] : List (List ℕ)).length ∧
    ("P1", transMatrix [[1,7,4,8,8],[2,2,3,4,5]] 0)
        ∈ build_transition_matrices [[1,7,4,8,8],[2,2,3,4,5]] ∧
    List.replicate 10 (0 : ℚ) ∈ transMatrix [[1,7,4,8,8],[2,2,3,4,5]] 0 ∧
    (List.replicate 10 (0 : ℚ) = List.replicate 10 (0 : ℚ) ∨
      |(List.replicate 10 (0 : ℚ)).sum - 100| ≤ 1/1000) :=
  ⟨by decide, List.mem_map.mpr ⟨0, by decide, rfl⟩, by decide,
    row_sums_hundred_or_zero [[1,7,4,8,8],[2,2,3,4,5]] "P1"
      (transMatrix [[1,7,4,8,8],[2,2,3,4,5]] 0) (List.replicate 10 (0 : ℚ))
      (by decide) (List.mem_map.mpr ⟨0, by decide, rfl⟩) (by decide)⟩

/-- Rounding a whole number to 6 decimal places gives it back. -/
lemma round6_natCast (n : ℕ) : round6 ((n : ℕ) : ℚ) = (n : ℚ) := by
  unfold round6 roundHalfEven
  have h1 : ((n : ℚ) * 1000000) = (((n * 1000000 : ℕ) : ℚ)) := by
    push_cast
    ring
  rw [h1, Int.floor_natCast]
  rw [if_pos (by push_cast; norm_num)]
  push_cast
  field_simp

lemma round6_zero : round6 0 = 0 := by
  simpa using round6_natCast 0

lemma round6_hundred : round6 100 = 100 := by
  have h := round6_natCast 100
  norm_num at h
  exact h

/-- The P1 percentage row for predecessor digit 1 once the fixture is
reversed: one observed transition 1→1. -/
lemma p1_row_reversed :
    (transMatrix [[2,2,3,4,5],[1,7,4,8,8],[1,7,4,8,8]] 0).getD 1 [] =
      [0, 100, 0, 0, 0, 0, 0, 0, 0, 0] := by
  have hcr : countRows (transCounts [[2,2,3,4,5],[1,7,4,8,8],[1,7,4,8,8]] 0)
      = [[0,0,0,0,0,0,0,0,0,0],
         [0,1,0,0,0,0,0,0,0,0],
         [0,1,0,0,0,0,0,0,0,0],
         [0,0,0,0,0,0,0,0,0,0],
         [0,0,0,0,0,0,0,0,0,0],
         [0,0,0,0,0,0,0,0,0,0],
         [0,0,0,0,0,0,0,0,0,0],
         [0,0,0,0,0,0,0,0,0,0],
         [0,0,0,0,0,0,0,0,0,0],
         [0,0,0,0,0,0,0,0,0,0]] := by
    decide
  unfold transMatrix
  rw [hcr]
  show pctRow [0,1,0,0,0,0,0,0,0,0] = _
  unfold pctRow
  rw [if_neg (by decide)]
  have hs : ([0,1,0,0,0,0,0,0,0,0] : List ℕ).sum = 1 := by decide
  rw [hs]
  simp only [List.map_cons, List.map_nil]
  norm_num [round6_zero, round6_hundred]

/-- Claim C5 counterexample: on the three lines `1-7-4-8-8`, `17488`,
`2-2-3-4-5` the two orderings' coverage scores do NOT tie (5 forward
versus 10 reversed), the resolver reverses the sequence, and the P1
row for predecessor digit 1 of the resulting profile is not
`[0,50,50,0,0,0,0,0,0,0]`. -/
theorem scenario_three_lines_counterexample :
    extractedDraws (["1-7-4-8-8", "17488", "2-2-3-4-5"]) =
      [[1,7,4,8,8],[1,7,4,8,8],[2,2,3,4,5]] ∧
    (ensure_oldest_to_newest [[1,7,4,8,8],[1,7,4,8,8],[2,2,3,4,5]]).1 ≠
      [[1,7,4,8,8],[1,7,4,8,8],[2,2,3,4,5]] ∧
    (transMatrix
        (windowSelect 0 (ensure_oldest_to_newest
          [[1,7,4,8,8],[1,7,4,8,8],[2,2,3,4,5]]).1) 0).getD 1 [] ≠
      [0, 50, 50, 0, 0, 0, 0, 0, 0, 0] := by
  refine ⟨by decide, by decide, ?_⟩
  have horient : windowSelect 0 (ensure_oldest_to_newest
      [[1,7,4,8,8],[1,7,4,8,8],[2,2,3,4,5]]).1
      = [[2,2,3,4,5],[1,7,4,8,8],[1,7,4,8,8]] := by
    decide
  rw [horient, p1_row_reversed]
  intro hEq
  have h50 : (100 : ℚ) = 50 := by
    injection hEq with h1 h2
    injection h2
  norm_num at h50

/-- Claim C5 amended: the extractor finds the 3 draws, but the forward
coverage is 5 while the reverse coverage is 10, so the resolver
reverses the sequence; with window N = 0 the profile is built from the
reversed order, and its P1 row for predecessor digit 1 is
`[0, 100.0, 0, 0, 0, 0, 0, 0, 0, 0]`. -/
theorem scenario_three_lines :
    load_draws_from_text (["1-7-4-8-8", "17488", "2-2-3-4-5"]) =
      Except.ok [[1,7,4,8,8],[1,7,4,8,8],[2,2,3,4,5]] ∧
    coverage [[1,7,4,8,8],[1,7,4,8,8],[2,2,3,4,5]] = 5 ∧
    coverage ([[1,7,4,8,8],[1,7,4,8,8],[2,2,3,4,5]] : List (List ℕ)).reverse = 10 ∧
    (ensure_oldest_to_newest [[1,7,4,8,8],[1,7,4,8,8],[2,2,3,4,5]]).1 =
      [[2,2,3,4,5],[1,7,4,8,8],[1,7,4,8,8]] ∧
    windowSelect 0 [[2,2,3,4,5],[1,7,4,8,8],[1,7,4,8,8]] =
      [[2,2,3,4,5],[1,7,4,8,8],[1,7,4,8,8]] ∧
    (transMatrix [[2,2,3,4,5],[1,7,4,8,8],[1,7,4,8,8]] 0).getD 1 [] =
      [0, 100, 0, 0, 0, 0, 0, 0, 0, 0] :=
  ⟨rfl, by decide, by decide, by decide, by decide, p1_row_reversed⟩

/-- Claim C9 counterexample: the filename builder inserts the draw label
verbatim; for the caller-supplied draw label `MID` the draw component
of the produced filename is `MID`, which is not lowercase. -/
theorem export_filename_counterexample :
    mkFilename ("OH") ("MID") = "positional_matrices_OH_MID.json" ∧
    ¬ (∀ c ∈ ("MID" : String).data, c.isLower = true) := by
  refine ⟨rfl, ?_⟩
  intro h
  have := h 'M' (by decide)
  simp at this

/-- Claim C9 amended: the exported profile's keys are exactly `P1`..`P5`,
each bound to a 10×10 matrix of numbers; the suggested filename is
`positional_matrices_<STATE>_<draw>.json` with both labels inserted
verbatim, so the draw component is lowercase exactly when the supplied
label is (as are the UI's fixed options `mid`/`eve`). -/
theorem export_shape_and_filename (draws : List (List ℕ))
    (state draw : String) :
    (build_transition_matrices draws).map Prod.fst =
      ["P1", "P2", "P3", "P4", "P5"] ∧
    (∀ kv ∈ build_transition_matrices draws,
      kv.2.length = 10 ∧ ∀ row ∈ kv.2, row.length = 10) ∧
    mkFilename state draw =
      "positional_matrices_" ++ state ++ "_" ++ draw ++ ".json" ∧
    (draw ∈ DRAWS → ∀ c ∈ draw.data, c.isLower = true) := by
  refine ⟨rfl, ?_, rfl, ?_⟩
  · intro kv hkv
    unfold build_transition_matrices at hkv
    rw [List.mem_map] at hkv
    obtain ⟨pos, _, hkv⟩ := hkv
    have hmat : kv.2 = transMatrix draws pos := congrArg Prod.snd hkv.symm
    rw [hmat]
    constructor
    · unfold transMatrix countRows
      simp
    · intro row hrow
      unfold transMatrix at hrow
      rw [List.mem_map] at hrow
      obtain ⟨crow, hcrow, hpct⟩ := hrow
      unfold countRows at hcrow
      rw [List.mem_map] at hcrow
      obtain ⟨ra, _, hra⟩ := hcrow
      have hclen : crow.length = 10 := by
        rw [← hra]
        simp
      subst hpct
      unfold pctRow
      by_cases hz : crow.sum = 0
      · rw [if_pos hz]
        simp
      · rw [if_neg hz]
        rw [List.length_map, hclen]
  · intro hmem
    have hmem' : draw = "mid" ∨ draw = "eve" := by
      simpa [DRAWS] using hmem
    rcases hmem' with h | h <;> rw [h] <;> decide

/-- Claim C9 amended witness: the UI option `mid` is lowercase. -/
theorem export_shape_and_filename_witness :
    ("mid" : String) ∈ DRAWS ∧ (∀ c ∈ ("mid" : String).data, c.isLower = true) :=
  ⟨by decide, (export_shape_and_filename [] ("OH") ("mid")).2.2.2 (by decide)⟩
